import Mathlib

/-!
Verification development for the ribav-scraper HTML-to-docx conversion engine.

The definitions below are a shallow embedding of the Rust sources:

* `src/parser/parser.rs` — `CharacterPropertyExt::merge`, `parse_recursive`,
  `parse_html_to_docx_format`;
* `src/post/post.rs` — the paragraph-assembly loop of `Post::_messages_to_word`;
* `src/utils/functions.rs` — `is_citation`, `anonymize_author`.

Rust panics (`panic!`, `unimplemented!`, `Option::unwrap` on `None`,
`Result::unwrap` on `Err`) are modelled as `Except Err` errors: a panic unwinds
the whole conversion, and an `Except` error propagates the same way.
Machine strings are Lean `String`s; the handful of `str` operations the source
uses (`split`, `trim`, `contains`, `trim_end_matches`) are re-implemented
below on `List Char` so that every definition reduces inside the kernel.
The recursive tree walk is defined structurally on an explicit fuel argument;
the public wrappers supply fuel `nodesSize children + 1`, which is proved
sufficient by the fuel-congruence lemma `parseGo_congr` further down, so the
wrappers satisfy the expected recursion equations exactly.
-/

namespace RibavScraper

/-- Model of `docx_rust::formatting::UnderlineStyle`; the program only ever
uses the `Single` variant. -/
inductive UnderlineStyle where
  | single : UnderlineStyle
deriving DecidableEq, Repr

/-- Model of `docx_rust::formatting::CharacterProperty`, restricted to the six
fields this program reads or writes (`bold`, `italics`, `underline`, `size`,
`color`, `style_id`); all other `CharacterProperty` fields are never set by the
program and are reset to `Default::default()` by `merge`, so they are omitted.
The spec calls this type `StyleDescriptor` and calls `style_id` the
`semantic_tag`.  `color` is an RGB triple (`Color::from((r, g, b))`). -/
structure CharacterProperty where
  bold : Option Bool
  italics : Option Bool
  underline : Option UnderlineStyle
  size : Option Nat
  color : Option (Nat × Nat × Nat)
  style_id : Option String
deriving DecidableEq, Repr

/-- `CharacterProperty::default()`: every field absent. -/
def CharacterProperty.empty : CharacterProperty :=
  ⟨none, none, none, none, none, none⟩

/-- `CharacterPropertyExt::merge` (parser.rs lines 13–25): per field,
`self`'s value if present, else `other`'s (`self.bold.or(other.bold)` etc.). -/
def CharacterProperty.merge (a b : CharacterProperty) : CharacterProperty :=
  { bold := a.bold.or b.bold
    italics := a.italics.or b.italics
    underline := a.underline.or b.underline
    size := a.size.or b.size
    color := a.color.or b.color
    style_id := a.style_id.or b.style_id }

/-- One item of a `docx_rust::document::Run`'s content: `push_text` adds a
`text` item (the `Bool` records `TextSpace::Preserve`), `push_break` adds a
`brk` item (always `BreakType::TextWrapping` in this program). -/
inductive RunContent where
  | text (s : String) (preserve : Bool) : RunContent
  | brk : RunContent
deriving DecidableEq, Repr

/-- Model of `docx_rust::document::Run`: an optional character property plus
ordered content items. -/
structure Run where
  property : Option CharacterProperty
  content : List RunContent
deriving DecidableEq, Repr

/-- The builder `Run::property` from docx_rust: it overwrites the run's
property field with the given one (it does not merge). -/
def Run.setProperty (r : Run) (p : CharacterProperty) : Run :=
  { r with property := some p }

mutual
/-- Model of one node of the `scraper` HTML tree, carrying exactly what the
program reads: the tag name, the class list (`has_class`), the `style`
attribute (`attr("style")`) and the children.  `comment` stands for the node
kinds that fall into the `_ => info!(...)` arm of `parse_recursive`. -/
inductive HNode where
  | text (content : String) : HNode
  | element (tag : String) (classes : List String) (style : Option String)
      (children : HNodes) : HNode
  | comment : HNode
deriving Repr

/-- A sequence of sibling nodes (children of an element).  A separate mutual
inductive rather than `List HNode` so that sizes and equality remain
structurally computable. -/
inductive HNodes where
  | nil : HNodes
  | cons (head : HNode) (tail : HNodes) : HNodes
deriving Repr
end

/-- Children of a node (`ElementRef::children`); non-elements have none. -/
def HNode.childrenList : HNode → HNodes
  | .element _ _ _ ch => ch
  | _ => .nil

/-- Whether a node is an element. -/
def HNode.isElem : HNode → Bool
  | .element _ _ _ _ => true
  | _ => false

/-- Concatenation of sibling sequences. -/
def HNodes.append : HNodes → HNodes → HNodes
  | .nil, ms => ms
  | .cons n rest, ms => .cons n (rest.append ms)

/-- Structural size of a sibling sequence (at least 1, and strictly larger
than the size of any node or child sequence inside it); the measure that
bounds the fuel of the tree walk. -/
def nodesSize : HNodes → Nat
  | .nil => 1
  | .cons (.text _) rest => 2 + nodesSize rest
  | .cons .comment rest => 2 + nodesSize rest
  | .cons (.element _ _ _ ch) rest => 2 + nodesSize ch + nodesSize rest

/-- Structural size of a node. -/
def nodeSize : HNode → Nat
  | .text _ => 1
  | .comment => 1
  | .element _ _ _ ch => 1 + nodesSize ch

/-- `el.child_elements().last()`: the last child that is an element. -/
def lastElementChild : HNodes → Option HNode
  | .nil => none
  | .cons n rest =>
    match lastElementChild rest with
    | some c => some c
    | none => if n.isElem then some n else none

/-- Trimming on character lists (`str::trim`; Lean's `Char.isWhitespace`
covers the whitespace this program's inputs contain). -/
def trimChars (l : List Char) : List Char :=
  ((l.dropWhile Char.isWhitespace).reverse.dropWhile Char.isWhitespace).reverse

/-- `str::trim` on strings. -/
def strTrim (s : String) : String :=
  String.mk (trimChars s.data)

/-- `str::split(sep)` on character lists: `""` yields `[""]`, separators at the
ends yield empty segments, exactly as in Rust. -/
def splitOnChar (sep : Char) : List Char → List (List Char)
  | [] => [[]]
  | a :: rest =>
    if a == sep then
      [] :: splitOnChar sep rest
    else
      match splitOnChar sep rest with
      | [] => [[a]]
      | g :: gs => (a :: g) :: gs

/-- Whether `pat` occurs at the start of `s` (helper for `strContains`). -/
def startsWithChars : List Char → List Char → Bool
  | [], _ => true
  | _ :: _, [] => false
  | a :: as, b :: bs => a == b && startsWithChars as bs

/-- Whether `pat` occurs anywhere in `s` (helper for `strContains`). -/
def containsChars (pat : List Char) : List Char → Bool
  | [] => startsWithChars pat []
  | c :: rest => startsWithChars pat (c :: rest) || containsChars pat rest

/-- `str::contains(pat)` for string patterns. -/
def strContains (s pat : String) : Bool :=
  containsChars pat.data s.data

/-- `str::trim_end_matches("px")` strips every trailing repetition of `"px"`;
this helper works on the reversed character list. -/
def stripPxRev : List Char → List Char
  | 'x' :: 'p' :: rest => stripPxRev rest
  | l => l

/-- `str::trim_end_matches("px")`. -/
def trimEndPx (s : String) : String :=
  String.mk (stripPxRev s.data.reverse).reverse

/-- `str::parse::<u8>()` as an `Option`: optional leading `+`, at least one
digit, value at most 255. -/
def parseU8 (s : String) : Option Nat :=
  let cs := match s.data with
    | '+' :: rest => rest
    | cs => cs
  if cs.isEmpty then none
  else if cs.all Char.isDigit then
    let n := cs.foldl (fun a c => a * 10 + (c.toNat - 48)) 0
    if n < 256 then some n else none
  else none

/-- The failure modes of the conversion.  Apart from `outOfFuel` (an artifact
of the fuel-based definition that never occurs at the fuel the wrappers
supply), each constructor is one panic site of `parse_html_to_docx_format`:

* `unknownTag tag` — `panic!("Unknown tag: {}", el.value().name())`;
* `unknownDivClass` — `unimplemented!("Unknown div class: ...")`;
* `missingStyleValue` — `split.next().unwrap()` when a semicolon-separated
  style segment has no `:`-separated value;
* `badFontSize` — `parse::<u8>().unwrap()` failing on the font-size value;
* `emptyCitation` — `el.child_elements().last().unwrap()` on a citation block
  with no element child. -/
inductive Err where
  | outOfFuel : Err
  | unknownTag (tag : String) : Err
  | unknownDivClass : Err
  | missingStyleValue : Err
  | badFontSize : Err
  | emptyCitation : Err
deriving DecidableEq, Repr

/-- One semicolon-separated style segment turned into a `key:value` pair
(parser.rs lines 120–125): the first two `:`-separated pieces; a segment with
no `:` makes `split.next().unwrap()` panic on the value. -/
def parseDecl (seg : List Char) : Except Err (String × String) :=
  match splitOnChar ':' seg with
  | k :: v :: _ => .ok (String.mk k, String.mk v)
  | _ => .error .missingStyleValue

/-- The `style` attribute split into `key:value` declarations (parser.rs lines
116–126): split on `;`, then parse each segment. -/
def styleDecls (s : String) : Except Err (List (String × String)) :=
  (splitOnChar ';' s.data).mapM parseDecl

/-- `HashMap::get` on the collected declaration list: Rust's `collect` into a
`HashMap` keeps the last occurrence of a duplicated key. -/
def lookupLast (decls : List (String × String)) (k : String) : Option String :=
  decls.foldl (fun acc kv => if kv.1 == k then some kv.2 else acc) none

/-- The `CharacterProperty` built from a span's style declarations (parser.rs
lines 128–163): `font-weight=bold` sets bold, `font-style=italics` (the
literal string the code compares against) sets italics,
`text-decoration=underline` sets a single underline, `font-size` is parsed as
`u8` after stripping `px` (panicking on parse failure) with values below 15
clamped up to 16, and `color=blue` sets RGB (0,0,255) while any other color is
only logged. -/
def spanProperty (decls : List (String × String)) : Except Err CharacterProperty := do
  let get := lookupLast decls
  let cp0 : CharacterProperty := CharacterProperty.empty
  let cp1 := if (get "font-weight").getD "" == "bold"
    then { cp0 with bold := some true } else cp0
  let cp2 := if (get "font-style").getD "" == "italics"
    then { cp1 with italics := some true } else cp1
  let cp3 := if (get "text-decoration").getD "" == "underline"
    then { cp2 with underline := some UnderlineStyle.single } else cp2
  let cp4 ← match get "font-size" with
    | none => pure cp3
    | some v =>
      match parseU8 (trimEndPx v) with
      | none => .error .badFontSize
      | some sz => pure { cp3 with size := some (if sz < 15 then 16 else sz) }
  let cp5 := match get "color" with
    | some c => if c == "blue" then { cp4 with color := some (0, 0, 255) } else cp4
    | none => cp4
  pure cp5

/-- Flattened text of a worklist of nodes (`ElementRef::text().collect()`):
the concatenation of all descendant text-node contents in tree order.  The
fuel argument makes the definition structural; each step strictly shrinks the
total `nodesSize` of the worklist, so the fuel supplied by `textContent`
suffices. -/
def textGo : Nat → HNodes → String
  | 0, _ => ""
  | _ + 1, .nil => ""
  | fuel + 1, .cons n rest =>
    match n with
    | .text s => s ++ textGo fuel rest
    | .comment => textGo fuel rest
    | .element _ _ _ ch => textGo fuel (ch.append rest)

/-- `ElementRef::text().collect::<String>()` for a node. -/
def textContent (n : HNode) : String :=
  textGo (nodeSize n + 2) (.cons n .nil)

/-- The run `Run::default().push_text("").push_break(BreakType::TextWrapping)`
emitted for a `<br>` (parser.rs lines 108–114). -/
def breakRun : Run :=
  ⟨none, [.text "" false, .brk]⟩

/-- The spacer `Run::default().push_text((" ", TextSpace::Preserve))` emitted
around span contents (parser.rs lines 165–176). -/
def spacerRun : Run :=
  ⟨none, [.text " " true]⟩

/-- The leading `"Citation: "` run of a citation block (parser.rs lines
82–90): bold with `style_id = "citation"`. -/
def citationLabelRun : Run :=
  ⟨some { CharacterProperty.empty with
            bold := some true, style_id := some "citation" },
   [.text "Citation: " false]⟩

/-- The property `CharacterProperty::default().style_id("citation")` that the
citation handler installs on every run of the quoted block (parser.rs lines
94–98).  Note it carries only the style id: `Run::property` overwrites, so a
run mapped through it loses any bold/italics/… it previously had. -/
def citationOnlyProperty : CharacterProperty :=
  { CharacterProperty.empty with style_id := some "citation" }

/-- A pending job of the tree walk: either the child-iteration loop of
`parse_recursive` over a sibling sequence, or `parse_html_to_docx_format` on
one element; each carries the `last_element_is_citation` flag. -/
inductive PJob where
  | nodes (ns : HNodes) (lastIsCit : Bool) : PJob
  | elem (n : HNode) (lastIsCit : Bool) : PJob
deriving Repr

/-- Measure used for the fuel bound. -/
def PJob.size : PJob → Nat
  | .nodes ns _ => nodesSize ns
  | .elem n _ => nodeSize n

/-- The mutually recursive pair `parse_recursive` / `parse_html_to_docx_format`
as one fuel-indexed function.  `.nodes` is the `while let Some(node) =
children.next()` loop of `parse_recursive` (parser.rs lines 27–48): a text
node pushes one run with the trimmed text, an element extends the output with
`parse_html_to_docx_format`, anything else is only logged.  `.elem` is the tag
dispatch of `parse_html_to_docx_format` (parser.rs lines 50–184), written with
the same branch order as the source `match`. -/
def parseGo : Nat → PJob → Except Err (List Run)
  | 0, _ => .error .outOfFuel
  | _ + 1, .nodes .nil _ => .ok []
  | fuel + 1, .nodes (.cons n rest) lastIsCit =>
    match n with
    | .text s => do
      let rs ← parseGo fuel (.nodes rest lastIsCit)
      .ok (⟨none, [.text (strTrim s) false]⟩ :: rs)
    | .comment => parseGo fuel (.nodes rest lastIsCit)
    | .element _ _ _ _ => do
      let here ← parseGo fuel (.elem n lastIsCit)
      let rs ← parseGo fuel (.nodes rest lastIsCit)
      .ok (here ++ rs)
  | fuel + 1, .elem n lastIsCit =>
    match n with
    | .text _ => .ok []
    | .comment => .ok []
    | .element tag classes style children =>
      if tag == "a" then
        .ok [⟨some { CharacterProperty.empty with
                       underline := some UnderlineStyle.single },
              [.text (textContent (.element tag classes style children)) false]⟩]
      else if tag == "div" then
        if "postrow-message" ∈ classes then
          .ok []
        else if "border-blue-500" ∈ classes then
          match lastElementChild children with
          | none => .error .emptyCitation
          | some c =>
            (parseGo fuel (.nodes c.childrenList true)).map fun rs =>
              citationLabelRun ::
                rs.map (fun r => r.setProperty citationOnlyProperty)
        else
          .error .unknownDivClass
      else if tag == "br" then
        .ok [breakRun]
      else if tag == "span" then do
        let decls ← styleDecls (style.getD "")
        let cp ← spanProperty decls
        let inner ← parseGo fuel (.nodes children false)
        .ok ((if lastIsCit then [] else [spacerRun]) ++
             inner.map (fun child =>
               child.setProperty
                 (match child.property with
                  | some childCp => cp.merge childCp
                  | none => cp)) ++
             [spacerRun])
      else
        .error (.unknownTag tag)

/-- The loop body of `parse_recursive` over a sibling sequence, at sufficient
fuel. -/
def parseNodes (ns : HNodes) (lastIsCit : Bool) : Except Err (List Run) :=
  parseGo (nodesSize ns + 1) (.nodes ns lastIsCit)

/-- `parse_recursive(container, last_element_is_citation)` (parser.rs lines
27–48). -/
def parse_recursive (container : HNode) (lastIsCit : Bool) : Except Err (List Run) :=
  parseNodes container.childrenList lastIsCit

/-- `parse_html_to_docx_format(el, last_element_is_citation)` (parser.rs
lines 50–184); `None` yields no runs. -/
def parse_html_to_docx_format (el : Option HNode) (lastIsCit : Bool) :
    Except Err (List Run) :=
  match el with
  | none => .ok []
  | some e => parseGo (nodeSize e + 1) (.elem e lastIsCit)

/-! ## The paragraph-assembly layer (`src/post/post.rs`, `src/utils/functions.rs`) -/

/-- `is_citation` (functions.rs lines 26–36): a run is a citation run when its
property's `style_id` (defaulting at both levels) equals `"citation"`. -/
def is_citation (run : Run) : Bool :=
  ((run.property.getD CharacterProperty.empty).style_id.getD "") == "citation"

/-- Output paragraph: its runs, and whether the paragraph carries the
`Indent { left: Some(300) }` property that `_messages_to_word` attaches to
citation paragraphs.  (The title paragraph's center justification lies outside
the per-message loop modelled here.) -/
structure Paragraph where
  runs : List Run
  indented : Bool
deriving DecidableEq, Repr

/-- The run-grouping loop of `Post::_messages_to_word` (post.rs lines
142–188), expressed as a single pass with an accumulator.  The correspondence
to the source's nested iterator loops: `acc = none` is the head of the outer
`while let Some(run)` loop, which opens a group with the run's citation state;
`acc = some (g, cit)` is the inner `while let Some(next_run)` loop, which
appends runs of the same state to the open paragraph; a run of the opposite
state closes the open paragraph, is emitted as a single-run paragraph of its
own (the source's `last_run` handling), and the outer loop resumes on the
following run.  A paragraph is `indented` exactly when its runs are citation
runs, in both branches of the source. -/
def groupRunsGo : Option (List Run × Bool) → List Run → List Paragraph
  | none, [] => []
  | some (g, cit), [] => [⟨g, cit⟩]
  | none, r :: rest => groupRunsGo (some ([r], is_citation r)) rest
  | some (g, cit), r :: rest =>
    if is_citation r == cit then
      groupRunsGo (some (g ++ [r], cit)) rest
    else
      ⟨g, cit⟩ :: ⟨[r], is_citation r⟩ :: groupRunsGo none rest

/-- The run-grouping loop of `Post::_messages_to_word` on a message's run
sequence. -/
def groupRuns (rs : List Run) : List Paragraph :=
  groupRunsGo none rs

/-- The owner-identifying substring `"Binyamin Wattenberg"` that
`_messages_to_word` matches authors against. -/
def ownerName : String := "Binyamin Wattenberg"

/-- ASCII model of `char::to_uppercase` (the author names this program
uppercases are ASCII). -/
def charUpperString (c : Char) : String :=
  String.mk [c.toUpper]

/-- `str::split_whitespace` helper on characters: maximal non-whitespace
words, in order, empties skipped. -/
def splitWsGo (cur : List Char) : List Char → List (List Char)
  | [] => if cur.isEmpty then [] else [cur.reverse]
  | c :: rest =>
    if c.isWhitespace then
      if cur.isEmpty then splitWsGo [] rest
      else cur.reverse :: splitWsGo [] rest
    else splitWsGo (c :: cur) rest

/-- `str::split_whitespace`. -/
def splitWhitespaceStr (s : String) : List String :=
  (splitWsGo [] s.data).map String.mk

/-- `anonymize_author` (functions.rs lines 13–24): honorific-prefixed names
(lowercased name starting with `"rav "`) pass through; otherwise the name is
reduced to the uppercased first character of each whitespace-separated word.
(`String.toLower`/`Char.toUpper` are ASCII models of the Rust Unicode
versions; the difference is immaterial for this program's inputs.) -/
def anonymize_author (author : String) : String :=
  if author.toLower.startsWith "rav " then author
  else
    String.join ((splitWhitespaceStr author).map fun word =>
      match word.data with
      | [] => ""
      | c :: _ => charUpperString c)

/-- The bold/size-24/underlined property shared by the `"Réponse:"` and
`"Question par …:"` heading runs (post.rs lines 95–100 and 112–117). -/
def headingProperty : CharacterProperty :=
  { CharacterProperty.empty with
      bold := some true, size := some 24,
      underline := some UnderlineStyle.single }

/-- The placeholder paragraph `Paragraph::default().push(Run::default()
.push_text(""))` emitted instead of a heading when consecutive messages are
both owner-authored (post.rs line 89). -/
def collapsedHeadingParagraph : Paragraph :=
  ⟨[⟨none, [.text "" false]⟩], false⟩

/-- The `"Réponse:"` heading paragraph (post.rs lines 91–103). -/
def reponseParagraph : Paragraph :=
  ⟨[⟨some headingProperty, [.brk, .text "Réponse:" false, .brk]⟩], false⟩

/-- The `"Question par …:"` heading paragraph (post.rs lines 104–120). -/
def questionParagraph (author : String) : Paragraph :=
  ⟨[⟨some headingProperty,
     [.brk, .text ("Question par " ++ anonymize_author author ++ ":") false, .brk]⟩],
   false⟩

/-- The heading decision of `_messages_to_word` (post.rs lines 81–120): if
the message author contains the owner substring and the remembered
`last_author` also does, emit the empty placeholder; if only the author does,
emit `"Réponse:"`; otherwise emit `"Question par <anonymized>:"`. -/
def author_p (last_author : Option String) (author : String) : Paragraph :=
  if strContains author ownerName then
    if last_author.any (fun la => strContains la ownerName) then
      collapsedHeadingParagraph
    else reponseParagraph
  else questionParagraph author

/-- The date paragraph (post.rs lines 129–140): bold underlined
`"Le <date>"` with the `"Posté le: "` prefix stripped, then a break. -/
def date_p (date : String) : Paragraph :=
  ⟨[⟨some { CharacterProperty.empty with
              bold := some true, underline := some UnderlineStyle.single },
     [.text ("Le " ++ date.replace "Posté le: " "") false, .brk]⟩],
   false⟩

/-- The trailing empty paragraph pushed after each message's body (post.rs
lines 190–191). -/
def trailingParagraph : Paragraph :=
  ⟨[⟨none, [.text "" false]⟩], false⟩

/-- One iteration of the message loop of `_messages_to_word` (post.rs lines
80–192), given the runs the message body parsed to: heading paragraph, date
paragraph, grouped body paragraphs, trailing empty paragraph. -/
def assembleMessage (last_author : Option String) (author date : String)
    (runs : List Run) : List Paragraph :=
  author_p last_author author :: date_p date ::
    (groupRuns runs ++ [trailingParagraph])

/-- The full message loop of `_messages_to_word` over a list of
`(author, date, body runs)` triples, threading `self.last_author` (post.rs
line 122 sets it to the current author right after the heading decision);
returns the emitted paragraphs and the final `last_author` state. -/
def messagesToParagraphs (last_author : Option String) :
    List (String × String × List Run) → List Paragraph × Option String
  | [] => ([], last_author)
  | (author, date, runs) :: rest =>
    let here := assembleMessage last_author author date runs
    let (there, final) := messagesToParagraphs (some author) rest
    (here ++ there, final)

/-! ## Concrete example inputs used by counterexamples and witnesses -/

/-- A paragraph is well-formed for the grouping claims: nonempty, and its
indentation flag agrees with the citation state of every run in it. -/
def paraOK (p : Paragraph) : Bool :=
  (!p.runs.isEmpty) && p.runs.all (fun r => is_citation r == p.indented)

/-- A descriptor with only `bold := some true` (merge example). -/
def mergeExA : CharacterProperty := { CharacterProperty.empty with bold := some true }

/-- A descriptor with only `bold := some false` (merge example). -/
def mergeExB : CharacterProperty := { CharacterProperty.empty with bold := some false }

/-- `<span style="font-weight:bold">Hi</span>`: an inline-styled span. -/
def c1InnerSpan : HNode :=
  .element "span" [] (some "font-weight:bold") (.cons (.text "Hi") .nil)

/-- A wrapper span holding the quoted text of a citation block one level
deeper than the border box. -/
def c1Wrapper : HNode := .element "span" [] none (.cons c1InnerSpan .nil)

/-- `<div class="border-blue-500">` citation block whose quoted text contains
a bold span. -/
def c1Block : HNode :=
  .element "div" ["border-blue-500"] none (.cons c1Wrapper .nil)

/-- A run tagged `style_id = "citation"`. -/
def citRunEx : Run := ⟨some citationOnlyProperty, [.text "q" false]⟩

/-- An untagged run. -/
def plainRunEx : Run := ⟨none, [.text "x" false]⟩

end RibavScraper

namespace RibavScraper

/-! ## Size lemmas and fuel congruence -/

theorem nodesSize_pos (ns : HNodes) : 1 ≤ nodesSize ns := by
  cases ns with
  | nil => simp [nodesSize]
  | cons n rest => cases n <;> (simp only [nodesSize]; omega)

theorem nodeSize_pos (n : HNode) : 1 ≤ nodeSize n := by
  cases n <;> (simp only [nodeSize]; omega)

theorem nodesSize_cons (n : HNode) (rest : HNodes) :
    nodesSize (.cons n rest) = 1 + nodeSize n + nodesSize rest := by
  cases n <;> simp only [nodesSize, nodeSize] <;> omega

theorem childrenList_size_le (c : HNode) : nodesSize c.childrenList ≤ nodeSize c := by
  cases c <;> (simp only [HNode.childrenList, nodesSize, nodeSize]; omega)

theorem PJob.size_pos (job : PJob) : 1 ≤ job.size := by
  cases job with
  | nodes ns _ => exact nodesSize_pos ns
  | elem n _ => exact nodeSize_pos n

theorem lastElementChild_size_lt : ∀ (ns : HNodes) (c : HNode),
    lastElementChild ns = some c → nodeSize c < nodesSize ns
  | .nil, c => by simp [lastElementChild]
  | .cons n rest, c => by
    intro h
    unfold lastElementChild at h
    cases hr : lastElementChild rest with
    | some c2 =>
      rw [hr] at h
      have h3 := lastElementChild_size_lt rest c2 hr
      injection h with h2
      rw [h2] at h3
      have := nodesSize_cons n rest
      have := nodeSize_pos n
      omega
    | none =>
      rw [hr] at h
      by_cases he : n.isElem
      · simp [he] at h
        subst h
        have := nodesSize_cons n rest
        have := nodesSize_pos rest
        omega
      · simp [he] at h

/-- The result of the tree walk does not depend on the fuel, as long as the
fuel is at least the structural size of the job: the walk consumes at most one
unit of fuel per strict decrease of the job size. -/
theorem parseGo_congr : ∀ (f₁ f₂ : Nat) (job : PJob),
    job.size ≤ f₁ → job.size ≤ f₂ → parseGo f₁ job = parseGo f₂ job := by
  intro f₁
  induction f₁ with
  | zero =>
    intro f₂ job h1 h2
    exact absurd h1 (by have := PJob.size_pos job; omega)
  | succ f ih =>
    intro f₂ job h1 h2
    obtain ⟨g, rfl⟩ : ∃ g, f₂ = g + 1 :=
      ⟨f₂ - 1, by have := PJob.size_pos job; omega⟩
    match job with
    | .nodes .nil flag => rfl
    | .nodes (.cons n rest) flag =>
      have hsz : nodesSize (.cons n rest) = 1 + nodeSize n + nodesSize rest :=
        nodesSize_cons n rest
      have hj1 : nodesSize (.cons n rest) ≤ f + 1 := h1
      have hj2 : nodesSize (.cons n rest) ≤ g + 1 := h2
      have hrest1 : nodesSize rest ≤ f := by have := nodeSize_pos n; omega
      have hrest2 : nodesSize rest ≤ g := by have := nodeSize_pos n; omega
      have hn1 : nodeSize n ≤ f := by have := nodesSize_pos rest; omega
      have hn2 : nodeSize n ≤ g := by have := nodesSize_pos rest; omega
      match n with
      | .text s =>
        simp only [parseGo]
        rw [ih g (.nodes rest flag) hrest1 hrest2]
      | .comment =>
        simp only [parseGo]
        exact ih g (.nodes rest flag) hrest1 hrest2
      | .element tag classes style ch =>
        simp only [parseGo]
        rw [ih g (.nodes rest flag) hrest1 hrest2,
            ih g (.elem (.element tag classes style ch) flag) hn1 hn2]
    | .elem n flag =>
      match n with
      | .text s => rfl
      | .comment => rfl
      | .element tag classes style ch =>
        have hch1 : nodesSize ch ≤ f := by
          have e : nodeSize (.element tag classes style ch) = 1 + nodesSize ch := rfl
          have h1e : nodeSize (.element tag classes style ch) ≤ f + 1 := h1
          omega
        have hch2 : nodesSize ch ≤ g := by
          have e : nodeSize (.element tag classes style ch) = 1 + nodesSize ch := rfl
          have h2e : nodeSize (.element tag classes style ch) ≤ g + 1 := h2
          omega
        simp only [parseGo]
        split_ifs
        all_goals first
        | rfl
        | rw [ih g (.nodes ch false) hch1 hch2]
        | (cases hc : lastElementChild ch with
           | none => rfl
           | some c =>
             have hcsz := lastElementChild_size_lt ch c hc
             have hccl := childrenList_size_le c
             have e1 : (PJob.nodes c.childrenList true).size = nodesSize c.childrenList := rfl
             exact congrArg
               (Except.map fun rs =>
                 citationLabelRun :: List.map (fun r => r.setProperty citationOnlyProperty) rs)
               (ih g (.nodes c.childrenList true) (by omega) (by omega)))

theorem parseGo_to_parseNodes (f : Nat) (ns : HNodes) (flag : Bool)
    (h : nodesSize ns ≤ f) : parseGo f (.nodes ns flag) = parseNodes ns flag :=
  parseGo_congr f (nodesSize ns + 1) (.nodes ns flag) h (by
    have e : (PJob.nodes ns flag).size = nodesSize ns := rfl
    omega)

theorem parseGo_to_elem (f : Nat) (n : HNode) (flag : Bool)
    (h : nodeSize n ≤ f) :
    parseGo f (.elem n flag) = parse_html_to_docx_format (some n) flag :=
  parseGo_congr f (nodeSize n + 1) (.elem n flag) h (by
    have e : (PJob.elem n flag).size = nodeSize n := rfl
    omega)

/-! ## Recursion equations of the tree walk -/

theorem parseNodes_nil (flag : Bool) : parseNodes .nil flag = .ok [] := rfl

/-- A text child pushes exactly one run with the trimmed text and no property
(parser.rs lines 33–36), then the loop continues. -/
theorem parseNodes_text (s : String) (rest : HNodes) (flag : Bool) :
    parseNodes (.cons (.text s) rest) flag = (do
      let rs ← parseNodes rest flag
      Except.ok (⟨none, [.text (strTrim s) false]⟩ :: rs)) := by
  have e : nodesSize (.cons (.text s) rest) = 2 + nodesSize rest := rfl
  conv_lhs => rw [parseNodes]
  simp only [parseGo]
  rw [parseGo_to_parseNodes _ rest flag (by omega)]

theorem parseNodes_comment (rest : HNodes) (flag : Bool) :
    parseNodes (.cons .comment rest) flag = parseNodes rest flag := by
  have e : nodesSize (.cons .comment rest) = 2 + nodesSize rest := rfl
  conv_lhs => rw [parseNodes]
  simp only [parseGo]
  rw [parseGo_to_parseNodes _ rest flag (by omega)]

theorem parseNodes_element (tag : String) (cls : List String) (st : Option String)
    (ch rest : HNodes) (flag : Bool) :
    parseNodes (.cons (.element tag cls st ch) rest) flag = (do
      let here ← parse_html_to_docx_format (some (.element tag cls st ch)) flag
      let rs ← parseNodes rest flag
      Except.ok (here ++ rs)) := by
  have e : nodesSize (.cons (.element tag cls st ch) rest)
      = 2 + nodesSize ch + nodesSize rest := rfl
  have e2 : nodeSize (.element tag cls st ch) = 1 + nodesSize ch := rfl
  conv_lhs => rw [parseNodes]
  simp only [parseGo]
  rw [parseGo_to_parseNodes _ rest flag (by omega),
      parseGo_to_elem _ (.element tag cls st ch) flag (by omega)]

theorem parse_br (cls : List String) (st : Option String) (ch : HNodes) (flag : Bool) :
    parse_html_to_docx_format (some (.element "br" cls st ch)) flag = .ok [breakRun] := by
  simp only [parse_html_to_docx_format, parseGo]
  rfl

theorem parse_unknown_tag (tag : String) (cls : List String) (st : Option String)
    (ch : HNodes) (flag : Bool)
    (h : tag ∉ (["a", "div", "br", "span"] : List String)) :
    parse_html_to_docx_format (some (.element tag cls st ch)) flag
      = .error (.unknownTag tag) := by
  simp only [List.mem_cons, List.mem_singleton] at h
  push_neg at h
  obtain ⟨ha, hdiv, hbr, hspan⟩ := h
  simp only [parse_html_to_docx_format, parseGo]
  rw [if_neg (by simp [ha]), if_neg (by simp [hdiv]), if_neg (by simp [hbr]),
      if_neg (by simp [hspan])]

theorem parse_div_postrow (cls : List String) (st : Option String) (ch : HNodes)
    (flag : Bool) (h : "postrow-message" ∈ cls) :
    parse_html_to_docx_format (some (.element "div" cls st ch)) flag = .ok [] := by
  simp only [parse_html_to_docx_format, parseGo]
  rw [if_neg (by simp), if_pos (by simp), if_pos h]

theorem parse_div_unknown (cls : List String) (st : Option String) (ch : HNodes)
    (flag : Bool) (h1 : "postrow-message" ∉ cls) (h2 : "border-blue-500" ∉ cls) :
    parse_html_to_docx_format (some (.element "div" cls st ch)) flag
      = .error .unknownDivClass := by
  simp only [parse_html_to_docx_format, parseGo]
  rw [if_neg (by simp), if_pos (by simp), if_neg h1, if_neg h2]

theorem parse_div_citation_empty (cls : List String) (st : Option String) (ch : HNodes)
    (flag : Bool) (h1 : "postrow-message" ∉ cls) (h2 : "border-blue-500" ∈ cls)
    (h3 : lastElementChild ch = none) :
    parse_html_to_docx_format (some (.element "div" cls st ch)) flag
      = .error .emptyCitation := by
  simp only [parse_html_to_docx_format, parseGo]
  rw [if_neg (by simp), if_pos (by simp), if_neg h1, if_pos h2, h3]

/-- The citation branch (parser.rs lines 78–99): a `"Citation: "` label run,
then the runs of the block's last element child walked with
`last_element_is_citation = true`, each with its property replaced by
`citationOnlyProperty`. -/
theorem parse_div_citation (cls : List String) (st : Option String) (ch : HNodes)
    (flag : Bool) (c : HNode)
    (h1 : "postrow-message" ∉ cls) (h2 : "border-blue-500" ∈ cls)
    (h3 : lastElementChild ch = some c) :
    parse_html_to_docx_format (some (.element "div" cls st ch)) flag
      = Except.map
          (fun rs => citationLabelRun ::
            rs.map (fun r => r.setProperty citationOnlyProperty))
          (parseNodes c.childrenList true) := by
  have e2 : nodeSize (.element "div" cls st ch) = 1 + nodesSize ch := rfl
  have hcsz := lastElementChild_size_lt ch c h3
  have hccl := childrenList_size_le c
  simp only [parse_html_to_docx_format, parseGo]
  rw [if_neg (by simp), if_pos (by simp), if_neg h1, if_pos h2, h3]
  exact congrArg
    (Except.map fun rs =>
      citationLabelRun :: List.map (fun r => r.setProperty citationOnlyProperty) rs)
    (parseGo_to_parseNodes (nodeSize (.element "div" cls st ch)) c.childrenList true
      (by omega))

/-- The span branch (parser.rs lines 115–177): resolve the style map, build
the property, recurse into the children with the flag reset, merge the span's
property over each child run's own, and bracket with spacers (no leading
spacer directly inside a citation block). -/
theorem parse_span (cls : List String) (st : Option String) (ch : HNodes) (flag : Bool) :
    parse_html_to_docx_format (some (.element "span" cls st ch)) flag = (do
      let decls ← styleDecls (st.getD "")
      let cp ← spanProperty decls
      let inner ← parseNodes ch false
      Except.ok ((if flag then [] else [spacerRun]) ++
        inner.map (fun child =>
          child.setProperty
            (match child.property with
             | some childCp => cp.merge childCp
             | none => cp)) ++
        [spacerRun])) := by
  have e2 : nodeSize (.element "span" cls st ch) = 1 + nodesSize ch := rfl
  conv_lhs => rw [parse_html_to_docx_format]
  simp only [parseGo]
  rw [if_neg (by simp), if_neg (by simp), if_neg (by simp), if_pos (by simp)]
  rw [parseGo_to_parseNodes _ ch false (by omega)]

/-! ## Style-declaration parsing lemmas -/

theorem splitOnChar_ne_nil (sep : Char) : ∀ l : List Char, splitOnChar sep l ≠ []
  | [] => by simp [splitOnChar]
  | a :: rest => by
    simp only [splitOnChar]
    split_ifs
    · simp
    · cases h : splitOnChar sep rest <;> simp

theorem splitOnChar_of_not_mem (sep : Char) : ∀ l : List Char, sep ∉ l →
    splitOnChar sep l = [l]
  | [], _ => rfl
  | a :: rest, h => by
    rw [List.mem_cons, not_or] at h
    have ha : (a == sep) = false := by
      rw [beq_eq_false_iff_ne]
      exact fun hh => h.1 hh.symm
    simp only [splitOnChar, ha, splitOnChar_of_not_mem sep rest h.2]
    rfl

theorem splitOnChar_of_mem (sep : Char) : ∀ l : List Char, sep ∈ l →
    ∃ x y ys, splitOnChar sep l = x :: y :: ys
  | [], h => absurd h (by simp)
  | a :: rest, h => by
    simp only [splitOnChar]
    by_cases ha : (a == sep) = true
    · rw [if_pos ha]
      cases hr : splitOnChar sep rest with
      | nil => exact absurd hr (splitOnChar_ne_nil sep rest)
      | cons y ys => exact ⟨[], y, ys, rfl⟩
    · rw [if_neg ha]
      have hrest : sep ∈ rest := by
        rcases List.mem_cons.mp h with h2 | h2
        · exact absurd (beq_iff_eq.mpr h2.symm) ha
        · exact h2
      obtain ⟨x, y, ys, hr⟩ := splitOnChar_of_mem sep rest hrest
      rw [hr]
      exact ⟨a :: x, y, ys, rfl⟩

theorem parseDecl_error (seg : List Char) (h : ':' ∉ seg) :
    parseDecl seg = .error .missingStyleValue := by
  unfold parseDecl
  rw [splitOnChar_of_not_mem _ _ h]

theorem parseDecl_ok (seg : List Char) (h : ':' ∈ seg) :
    ∃ kv, parseDecl seg = .ok kv := by
  obtain ⟨x, y, ys, hr⟩ := splitOnChar_of_mem ':' seg h
  refine ⟨(String.mk x, String.mk y), ?_⟩
  unfold parseDecl
  rw [hr]

theorem mapM_parseDecl_error : ∀ segs : List (List Char),
    (∃ seg ∈ segs, ':' ∉ seg) →
    segs.mapM parseDecl = .error .missingStyleValue
  | [], h => by simp at h
  | g :: gs, h => by
    rw [List.mapM_cons]
    by_cases hg : ':' ∈ g
    · obtain ⟨kv, hkv⟩ := parseDecl_ok g hg
      rw [hkv]
      have hgs : ∃ seg ∈ gs, ':' ∉ seg := by
        obtain ⟨seg, hmem, hseg⟩ := h
        rcases List.mem_cons.mp hmem with rfl | hmem2
        · exact absurd hg hseg
        · exact ⟨seg, hmem2, hseg⟩
      rw [mapM_parseDecl_error gs hgs]
      rfl
    · rw [parseDecl_error g hg]
      rfl

/-- Any semicolon-separated segment of a style attribute that carries no `:`
makes the whole style resolution fail with the missing-value panic. -/
theorem styleDecls_error (s : String)
    (h : ∃ seg ∈ splitOnChar ';' s.data, ':' ∉ seg) :
    styleDecls s = .error .missingStyleValue := by
  unfold styleDecls
  exact mapM_parseDecl_error _ h

/-! ## Grouping-loop lemmas -/

/-- The grouping loop emits every run exactly once, in order. -/
theorem groupRunsGo_runs : ∀ rs : List Run,
    (∀ g cit, ((groupRunsGo (some (g, cit)) rs).map Paragraph.runs).flatten = g ++ rs)
    ∧ ((groupRunsGo none rs).map Paragraph.runs).flatten = rs
  | [] => by
    constructor
    · intro g cit
      simp [groupRunsGo]
    · simp [groupRunsGo]
  | r :: rest => by
    have IH := groupRunsGo_runs rest
    constructor
    · intro g cit
      simp only [groupRunsGo]
      by_cases h : (is_citation r == cit) = true
      · rw [if_pos h, IH.1 (g ++ [r]) cit]
        simp
      · rw [if_neg h]
        simp only [List.map_cons, List.flatten_cons]
        rw [IH.2]
        simp
    · simp only [groupRunsGo]
      rw [IH.1 [r] (is_citation r)]
      simp

/-- Every paragraph the grouping loop emits is nonempty, homogeneous in
citation state, and indented exactly when its runs are citation runs. -/
theorem groupRunsGo_ok : ∀ rs : List Run,
    (∀ g cit, g ≠ [] → g.all (fun r => is_citation r == cit) = true →
        (groupRunsGo (some (g, cit)) rs).all paraOK = true)
    ∧ (groupRunsGo none rs).all paraOK = true
  | [] => by
    constructor
    · intro g cit hg hall
      simp [groupRunsGo, paraOK, hall, List.isEmpty_iff, hg]
    · simp [groupRunsGo]
  | r :: rest => by
    have IH := groupRunsGo_ok rest
    constructor
    · intro g cit hg hall
      simp only [groupRunsGo]
      by_cases h : (is_citation r == cit) = true
      · rw [if_pos h]
        refine IH.1 (g ++ [r]) cit (by simp) ?_
        simp [List.all_append, hall, h]
      · rw [if_neg h]
        simp only [List.all_cons, IH.2, Bool.and_true]
        simp [paraOK, hall, List.isEmpty_iff, hg]
    · simp only [groupRunsGo]
      exact IH.1 [r] (is_citation r) (by simp) (by simp)

theorem option_or_ite {α : Type} (o o' : Option α) :
    o.or o' = if o.isSome then o else o' := by
  cases o <;> rfl

end RibavScraper

namespace RibavScraper

/-! ## Claim theorems -/

/-- C1 (amended): every run produced by recursing into a citation block's last
element child — including runs produced by nested inline-style spans — does
carry `semantic_tag = "citation"` in the output; but the tag is installed by
*replacing* the run's whole property with `citationOnlyProperty`
(`Run::property` overwrites), not by merging, so the run's own explicit
bold/italics/underline/size/color are *not* preserved. -/
theorem c1_citation_tagging (cls : List String) (st : Option String) (ch : HNodes)
    (flag : Bool) (c : HNode)
    (h1 : "postrow-message" ∉ cls) (h2 : "border-blue-500" ∈ cls)
    (h3 : lastElementChild ch = some c) :
    parse_html_to_docx_format (some (.element "div" cls st ch)) flag
      = Except.map
          (fun rs => citationLabelRun ::
            rs.map (fun r => r.setProperty citationOnlyProperty))
          (parseNodes c.childrenList true)
    ∧ ∀ rs, parseNodes c.childrenList true = .ok rs →
        ((citationLabelRun ::
            rs.map (fun r => r.setProperty citationOnlyProperty)).all
          (fun r => (r.property.getD CharacterProperty.empty).style_id
              == some "citation")) = true := by
  refine ⟨parse_div_citation cls st ch flag c h1 h2 h3, ?_⟩
  intro rs _
  simp only [List.all_cons, List.all_map]
  rw [Bool.and_eq_true]
  refine ⟨rfl, ?_⟩
  apply List.all_eq_true.mpr
  intro r _
  rfl

/-- C1 counterexample: in the citation block `c1Block`, the quoted text `"Hi"`
sits inside a `font-weight:bold` span, so the run entering the citation
mapping carries `bold := some true` (second conjunct); yet the block's output
run for `"Hi"` carries exactly `citationOnlyProperty`, whose `bold` is `none`
(first and third conjuncts) — the tag replaced the run's style instead of
being merged into it, refuting the claim that the run's own bold survives. -/
theorem c1_counterexample :
    parse_html_to_docx_format (some c1Block) false
      = .ok [citationLabelRun,
             ⟨some citationOnlyProperty, [.text "Hi" false]⟩,
             ⟨some citationOnlyProperty, [.text " " true]⟩]
    ∧ parseNodes c1Wrapper.childrenList true
      = .ok [⟨some { CharacterProperty.empty with bold := some true }, [.text "Hi" false]⟩,
             ⟨none, [.text " " true]⟩]
    ∧ citationOnlyProperty.bold = none :=
  ⟨rfl, rfl, rfl⟩

/-- C1 witness: the amended theorem applied to the concrete block `c1Block`. -/
theorem c1_citation_tagging_witness :
    ("postrow-message" ∉ (["border-blue-500"] : List String))
    ∧ ("border-blue-500" ∈ (["border-blue-500"] : List String))
    ∧ lastElementChild (.cons c1Wrapper .nil) = some c1Wrapper
    ∧ (parse_html_to_docx_format (some c1Block) false
        = Except.map
            (fun rs => citationLabelRun ::
              rs.map (fun r => r.setProperty citationOnlyProperty))
            (parseNodes c1Wrapper.childrenList true)) := by
  refine ⟨by decide, by decide, rfl, ?_⟩
  exact (c1_citation_tagging ["border-blue-500"] none (.cons c1Wrapper .nil) false
    c1Wrapper (by decide) (by decide) rfl).1

/-- C2 counterexample: on the run sequence `[cit, cit, plain, plain]` the
assembly loop emits *three* paragraphs `[cit, cit]`, `[plain]`, `[plain]`, not
the two maximal groups the claim requires: the two adjacent untagged runs do
not share a paragraph, because after a tag-state flip the loop emits the
flipping run as a single-run paragraph of its own and restarts. -/
theorem c2_counterexample :
    is_citation citRunEx = true
    ∧ is_citation plainRunEx = false
    ∧ groupRuns [citRunEx, citRunEx, plainRunEx, plainRunEx]
      = [⟨[citRunEx, citRunEx], true⟩, ⟨[plainRunEx], false⟩, ⟨[plainRunEx], false⟩] :=
  ⟨rfl, rfl, rfl⟩

/-- C2 (amended): the assembly loop groups consecutive runs of equal
citation-tag state, but after each state flip the first run of the new state
is emitted as its own single-run paragraph and grouping restarts after it, so
groups are not maximal.  What does hold for every run sequence: the emitted
paragraphs partition the runs in order (no run lost, duplicated or
reordered), every paragraph is nonempty and homogeneous in citation state,
and a paragraph is indented exactly when its runs are citation-tagged. -/
theorem c2_grouping_invariants (rs : List Run) :
    ((groupRuns rs).map Paragraph.runs).flatten = rs
    ∧ (groupRuns rs).all paraOK = true :=
  ⟨(groupRunsGo_runs rs).2, (groupRunsGo_ok rs).2⟩

/-- C3 (amended): a text node always emits exactly one run carrying the
trimmed text and no style — also when the content trims to the empty string;
there is no elision of all-whitespace text nodes.  The second conjunct checks
`"  Hello  "` produces the single run `"Hello"` as the claim's example says. -/
theorem c3_text_runs :
    (∀ (s : String) (rest : HNodes) (flag : Bool),
      parseNodes (.cons (.text s) rest) flag = (do
        let rs ← parseNodes rest flag
        Except.ok (⟨none, [.text (strTrim s) false]⟩ :: rs)))
    ∧ parseNodes (.cons (.text "  Hello  ") .nil) false
        = .ok [⟨none, [.text "Hello" false]⟩] := by
  exact ⟨parseNodes_text, rfl⟩

/-- C3 counterexample: an all-whitespace text node produces *one* run with
empty text, not zero runs as the claim states — `parse_recursive` pushes the
trimmed run unconditionally (parser.rs lines 33–36). -/
theorem c3_counterexample :
    parseNodes (.cons (.text "   ") .nil) false = .ok [⟨none, [.text "" false]⟩] := rfl

/-- C4: the failing input for the code bug.  A span with the CSS declaration
`font-style:italic` resolves to an *empty* property — italics is not set —
because parser.rs line 134 compares the value against the string `"italics"`,
which CSS never produces (the older in-repo copy of the same dispatcher,
main.rs line 126, compares against `"italic"`).  The second conjunct shows
the non-CSS value `"italics"` is what actually triggers the italics branch. -/
theorem c4_italics_divergence :
    parse_html_to_docx_format
        (some (.element "span" [] (some "font-style:italic") (.cons (.text "x") .nil))) false
      = .ok [spacerRun, ⟨some CharacterProperty.empty, [.text "x" false]⟩, spacerRun]
    ∧ parse_html_to_docx_format
        (some (.element "span" [] (some "font-style:italics") (.cons (.text "x") .nil))) false
      = .ok [spacerRun,
             ⟨some { CharacterProperty.empty with italics := some true }, [.text "x" false]⟩,
             spacerRun] :=
  ⟨rfl, rfl⟩

/-- C5 counterexample: between two untagged runs, the break-marker run does
*not* force a paragraph boundary — all three runs land in one paragraph,
refuting the claim that the runs before and after the marker always land in
different paragraphs.  (The marker itself carries no visible text.) -/
theorem c5_counterexample :
    is_citation plainRunEx = false
    ∧ is_citation breakRun = false
    ∧ groupRuns [plainRunEx, breakRun, plainRunEx]
      = [⟨[plainRunEx, breakRun, plainRunEx], false⟩] :=
  ⟨rfl, rfl, rfl⟩

/-- C5 (amended): the `<br>` element emits the empty-text break-marker run,
the marker carries no visible text and is an ordinary untagged run for the
assembly loop; it therefore forces no group boundary of its own — between two
untagged runs it is carried inside the same paragraph (the line break renders
within the paragraph), and boundaries arise only from citation-tag flips. -/
theorem c5_break_marker :
    (∀ (cls : List String) (st : Option String) (ch : HNodes) (flag : Bool),
      parse_html_to_docx_format (some (.element "br" cls st ch)) flag = .ok [breakRun])
    ∧ is_citation breakRun = false
    ∧ (breakRun.content.all fun c =>
        match c with
        | .text s _ => s == ""
        | .brk => true) = true
    ∧ (∀ n1 n2 : Run, is_citation n1 = false → is_citation n2 = false →
        groupRuns [n1, breakRun, n2] = [⟨[n1, breakRun, n2], false⟩]) := by
  refine ⟨parse_br, rfl, rfl, ?_⟩
  intro n1 n2 h1 h2
  have hbr : is_citation breakRun = false := rfl
  simp [groupRuns, groupRunsGo, h1, h2, hbr]

/-- C5 witness: the amended theorem's grouping conjunct at two concrete
untagged runs. -/
theorem c5_break_marker_witness :
    is_citation plainRunEx = false
    ∧ groupRuns [plainRunEx, breakRun, plainRunEx]
      = [⟨[plainRunEx, breakRun, plainRunEx], false⟩] :=
  ⟨rfl, c5_break_marker.2.2.2 plainRunEx plainRunEx rfl rfl⟩

/-- C6: merge precedence.  For every pair of descriptors and every one of the
six fields, `merge A B` keeps `A`'s value when it is set and falls back to
`B`'s otherwise; `merge A A = A`; and merge is not commutative — the two
concrete descriptors `mergeExA`/`mergeExB` (bold `some true` vs `some false`)
merge differently in the two orders. -/
theorem c6_merge_precedence :
    (∀ A B : CharacterProperty,
      (A.merge B).bold = (if A.bold.isSome then A.bold else B.bold)
      ∧ (A.merge B).italics = (if A.italics.isSome then A.italics else B.italics)
      ∧ (A.merge B).underline = (if A.underline.isSome then A.underline else B.underline)
      ∧ (A.merge B).size = (if A.size.isSome then A.size else B.size)
      ∧ (A.merge B).color = (if A.color.isSome then A.color else B.color)
      ∧ (A.merge B).style_id = (if A.style_id.isSome then A.style_id else B.style_id))
    ∧ (∀ A : CharacterProperty, A.merge A = A)
    ∧ (mergeExA.merge mergeExB == mergeExB.merge mergeExA) = false := by
  refine ⟨?_, ?_, ?_⟩
  · intro A B
    refine ⟨?_, ?_, ?_, ?_, ?_, ?_⟩
    all_goals exact option_or_ite _ _
  · intro A
    cases A
    simp [CharacterProperty.merge, Option.or_self]
  · rfl

/-- C7: fail-loud policy.  Any element whose tag is outside the recognized
set `{a, div, br, span}` makes the conversion fail with an error naming the
offending tag, and a div whose class list contains neither the
root-container marker nor the citation marker fails with the
unknown-div-class error. -/
theorem c7_unknown_tag_fatal :
    (∀ (tag : String) (cls : List String) (st : Option String) (ch : HNodes) (flag : Bool),
      tag ∉ (["a", "div", "br", "span"] : List String) →
      parse_html_to_docx_format (some (.element tag cls st ch)) flag
        = .error (.unknownTag tag))
    ∧ (∀ (cls : List String) (st : Option String) (ch : HNodes) (flag : Bool),
      "postrow-message" ∉ cls → "border-blue-500" ∉ cls →
      parse_html_to_docx_format (some (.element "div" cls st ch)) flag
        = .error .unknownDivClass) :=
  ⟨fun tag cls st ch flag h => parse_unknown_tag tag cls st ch flag h,
   fun cls st ch flag h1 h2 => parse_div_unknown cls st ch flag h1 h2⟩

/-- C7 witness: a `<table>` element and a `<div class="forum-header">`. -/
theorem c7_unknown_tag_fatal_witness :
    ("table" ∉ (["a", "div", "br", "span"] : List String))
    ∧ parse_html_to_docx_format (some (.element "table" [] none .nil)) false
        = .error (.unknownTag "table")
    ∧ ("postrow-message" ∉ (["forum-header"] : List String))
    ∧ ("border-blue-500" ∉ (["forum-header"] : List String))
    ∧ parse_html_to_docx_format (some (.element "div" ["forum-header"] none .nil)) false
        = .error .unknownDivClass :=
  ⟨by decide,
   c7_unknown_tag_fatal.1 "table" [] none .nil false (by decide),
   by decide, by decide,
   c7_unknown_tag_fatal.2 ["forum-header"] none .nil false (by decide) (by decide)⟩

/-- C8 (amended): over a fresh two-message thread, the final state is the
second author; the output is the two messages' paragraph blocks in order; each
message's first paragraph is its heading decision, the second computed from
`last_author = a1`; the first message always gets a real heading; and the
second message's heading collapses to the empty placeholder *exactly when
both authors contain the owner substring* — ownership is a substring match,
not author equality, so two different author strings that both contain
`"Binyamin Wattenberg"` still collapse (see the counterexample). -/
theorem c8_heading_collapse (a1 d1 a2 d2 : String) (r1 r2 : List Run) :
    (messagesToParagraphs none [(a1, d1, r1), (a2, d2, r2)]).2 = some a2
    ∧ (messagesToParagraphs none [(a1, d1, r1), (a2, d2, r2)]).1
        = assembleMessage none a1 d1 r1 ++ assembleMessage (some a1) a2 d2 r2
    ∧ (assembleMessage none a1 d1 r1).head? = some (author_p none a1)
    ∧ (assembleMessage (some a1) a2 d2 r2).head? = some (author_p (some a1) a2)
    ∧ decide (author_p none a1 = collapsedHeadingParagraph) = false
    ∧ decide (author_p (some a1) a2 = collapsedHeadingParagraph)
        = (strContains a1 ownerName && strContains a2 ownerName) := by
  refine ⟨rfl, ?_, rfl, rfl, ?_, ?_⟩
  · simp [messagesToParagraphs]
  · by_cases h1 : strContains a1 ownerName = true
    · simp [author_p, h1, Option.any]
      decide
    · simp [author_p, h1, decide_eq_false_iff_not,
        questionParagraph, collapsedHeadingParagraph]
  · by_cases h2 : strContains a2 ownerName = true
    · by_cases h1 : strContains a1 ownerName = true
      · simp [author_p, h2, h1, Option.any]
      · simp only [Bool.not_eq_true] at h1
        simp [author_p, h2, h1, Option.any]
        decide
    · simp only [Bool.not_eq_true] at h2
      simp [author_p, h2, decide_eq_false_iff_not,
        questionParagraph, collapsedHeadingParagraph]

/-- C8 counterexample: the authors `"Rav Binyamin Wattenberg"` and
`"Binyamin Wattenberg"` are different strings, yet both contain the owner
substring, so the second message's heading is the collapsed placeholder —
no heading is emitted even though the two messages have different authors,
refuting the claim's "different authors ⇒ a heading for each". -/
theorem c8_counterexample :
    (("Rav Binyamin Wattenberg" : String) == "Binyamin Wattenberg") = false
    ∧ strContains "Rav Binyamin Wattenberg" ownerName = true
    ∧ strContains "Binyamin Wattenberg" ownerName = true
    ∧ author_p (some "Rav Binyamin Wattenberg") "Binyamin Wattenberg"
        = collapsedHeadingParagraph :=
  ⟨rfl, by decide, by decide, by decide⟩

/-- C9: a span whose style attribute is absent or empty, or contains any
semicolon-separated segment with no `:`, makes the whole conversion fail with
the missing-style-value panic — before any child is walked. -/
theorem c9_span_style_panic (cls : List String) (st : Option String) (ch : HNodes)
    (flag : Bool) (h : ∃ seg ∈ splitOnChar ';' ((st.getD "").data), ':' ∉ seg) :
    parse_html_to_docx_format (some (.element "span" cls st ch)) flag
      = .error .missingStyleValue := by
  rw [parse_span, styleDecls_error _ h]
  rfl

/-- C9 witness: a bare `<span>` with no style attribute panics. -/
theorem c9_span_style_panic_witness :
    (∃ seg ∈ splitOnChar ';' (((none : Option String).getD "").data), ':' ∉ seg)
    ∧ parse_html_to_docx_format (some (.element "span" [] none .nil)) false
        = .error .missingStyleValue :=
  ⟨⟨[], by decide⟩, c9_span_style_panic [] none .nil false ⟨[], by decide⟩⟩

/-- C10: a citation-marker div with no element child makes the conversion
fail with the empty-citation panic (`child_elements().last().unwrap()`). -/
theorem c10_empty_citation_panic (cls : List String) (st : Option String) (ch : HNodes)
    (flag : Bool) (h1 : "postrow-message" ∉ cls) (h2 : "border-blue-500" ∈ cls)
    (h3 : lastElementChild ch = none) :
    parse_html_to_docx_format (some (.element "div" cls st ch)) flag
      = .error .emptyCitation :=
  parse_div_citation_empty cls st ch flag h1 h2 h3

/-- C10 witness: a citation div whose only child is a text node panics. -/
theorem c10_empty_citation_panic_witness :
    ("postrow-message" ∉ (["border-blue-500"] : List String))
    ∧ ("border-blue-500" ∈ (["border-blue-500"] : List String))
    ∧ lastElementChild (.cons (.text "q") .nil) = none
    ∧ parse_html_to_docx_format
        (some (.element "div" ["border-blue-500"] none (.cons (.text "q") .nil))) false
        = .error .emptyCitation :=
  ⟨by decide, by decide, rfl,
   c10_empty_citation_panic ["border-blue-500"] none (.cons (.text "q") .nil) false
     (by decide) (by decide) rfl⟩

end RibavScraper
